import Mathlib

/-!
Shallow embedding of `src/sbo/src/_converters/inequality_to_equality.py`:
the `InequalityToEquality` converter, which rewrites a quadratic program with
inequality constraints into one with only equality constraints by introducing
bounded slack variables, and interprets solutions of the converted problem
back into solutions of the original problem.

Numeric values are embedded as rationals (`ℚ`); Python floats carry exact
values in every computation the converter performs (comparison, floor, ceil,
interval sums), so `ℚ` is a faithful carrier for the properties below.
-/

namespace IneqToEq

/-- `Variable.Type`: the three supported variable kinds. -/
inductive VarType
  | binary
  | integer
  | continuous
deriving DecidableEq, Repr

/-- A decision variable of the external problem container: name (unique key),
kind, and lower/upper bound. -/
structure Variable where
  name : String
  vartype : VarType
  lowerbound : ℚ
  upperbound : ℚ
deriving DecidableEq, Repr

/-- `Constraint.Sense`: LE, GE, EQ. -/
inductive Sense
  | le
  | ge
  | eq
deriving DecidableEq, Repr

/-- A linear constraint: a coefficient mapping keyed by variable name
(the dict form of the linear expression), a sense, a rhs and a name. -/
structure LinearConstraint where
  linear : List (String × ℚ)
  sense : Sense
  rhs : ℚ
  name : String
deriving DecidableEq, Repr

/-- A quadratic constraint: linear and quadratic coefficient mappings,
a sense, a rhs and a name. -/
structure QuadraticConstraint where
  linear : List (String × ℚ)
  quadratic : List ((String × String) × ℚ)
  sense : Sense
  rhs : ℚ
  name : String
deriving DecidableEq, Repr

/-- Objective sense: minimize or maximize. -/
inductive ObjSense
  | minimize
  | maximize
deriving DecidableEq, Repr

/-- The objective: constant, linear part, quadratic part, sense. -/
structure Objective where
  constant : ℚ
  linear : List (String × ℚ)
  quadratic : List ((String × String) × ℚ)
  sense : ObjSense
deriving DecidableEq, Repr

/-- The problem container (`QuadraticProgram`): an ordered list of variables
(insertion order is significant), linear and quadratic constraints, an
objective, and a name. -/
structure QuadraticProgram where
  name : String
  vars : List Variable
  linearConstraints : List LinearConstraint
  quadraticConstraints : List QuadraticConstraint
  objective : Objective
deriving DecidableEq, Repr

/-- Errors raised by the converter (`QiskitOptimizationError` and the Python
`KeyError`/`ValueError` paths). -/
inductive ConvError
  | unsupportedMode (mode : String)
  | incompatibleSlackMode (name : String)
  | keyError
  | uninitialized
deriving DecidableEq, Repr

/-- Modelled from the spec: `QuadraticProgram(name=...)`, a fresh empty model
from the external problem container. -/
def emptyProgram (n : String) : QuadraticProgram :=
  ⟨n, [], [], [], ⟨0, [], [], ObjSense.minimize⟩⟩

/-- Modelled from the spec: `binary_var(name)` of the external problem
container appends a binary variable with bounds 0 and 1. -/
def binaryVar (p : QuadraticProgram) (n : String) : QuadraticProgram :=
  { p with vars := p.vars ++ [⟨n, VarType.binary, 0, 1⟩] }

/-- Modelled from the spec: `integer_var(name, lowerbound, upperbound)`. -/
def integerVar (p : QuadraticProgram) (n : String) (lb ub : ℚ) : QuadraticProgram :=
  { p with vars := p.vars ++ [⟨n, VarType.integer, lb, ub⟩] }

/-- Modelled from the spec: `continuous_var(name, lowerbound, upperbound)`. -/
def continuousVar (p : QuadraticProgram) (n : String) (lb ub : ℚ) : QuadraticProgram :=
  { p with vars := p.vars ++ [⟨n, VarType.continuous, lb, ub⟩] }

/-- Look up a variable of the model by name. -/
def findVar (p : QuadraticProgram) (n : String) : Option Variable :=
  p.vars.find? (fun v => v.name == n)

/-- Modelled from the spec: contribution of one linear term to the
expression's interval lower bound (min of coefficient times either bound). -/
def termLB (p : QuadraticProgram) (t : String × ℚ) : ℚ :=
  match findVar p t.1 with
  | some v => min (t.2 * v.lowerbound) (t.2 * v.upperbound)
  | none => 0

/-- Modelled from the spec: contribution of one linear term to the
expression's interval upper bound. -/
def termUB (p : QuadraticProgram) (t : String × ℚ) : ℚ :=
  match findVar p t.1 with
  | some v => max (t.2 * v.lowerbound) (t.2 * v.upperbound)
  | none => 0

/-- Modelled from the spec: `linear.bounds.lowerbound`, the interval lower
bound of a linear expression given the variable bounds. -/
def linLowerBound (p : QuadraticProgram) (l : List (String × ℚ)) : ℚ :=
  (l.map (termLB p)).sum

/-- Modelled from the spec: `linear.bounds.upperbound`. -/
def linUpperBound (p : QuadraticProgram) (l : List (String × ℚ)) : ℚ :=
  (l.map (termUB p)).sum

/-- Modelled from the spec: contribution of one quadratic term to the
expression's interval lower bound — interval arithmetic over the four
products of the two variables' bounds. -/
def quadTermLB (p : QuadraticProgram) (t : (String × String) × ℚ) : ℚ :=
  match findVar p t.1.1, findVar p t.1.2 with
  | some v, some w =>
      min (min (t.2 * (v.lowerbound * w.lowerbound)) (t.2 * (v.lowerbound * w.upperbound)))
          (min (t.2 * (v.upperbound * w.lowerbound)) (t.2 * (v.upperbound * w.upperbound)))
  | _, _ => 0

/-- Modelled from the spec: contribution of one quadratic term to the
expression's interval upper bound. -/
def quadTermUB (p : QuadraticProgram) (t : (String × String) × ℚ) : ℚ :=
  match findVar p t.1.1, findVar p t.1.2 with
  | some v, some w =>
      max (max (t.2 * (v.lowerbound * w.lowerbound)) (t.2 * (v.lowerbound * w.upperbound)))
          (max (t.2 * (v.upperbound * w.lowerbound)) (t.2 * (v.upperbound * w.upperbound)))
  | _, _ => 0

/-- Modelled from the spec: `quadratic.bounds.lowerbound`. -/
def quadLowerBound (p : QuadraticProgram) (q : List ((String × String) × ℚ)) : ℚ :=
  (q.map (quadTermLB p)).sum

/-- Modelled from the spec: `quadratic.bounds.upperbound`. -/
def quadUpperBound (p : QuadraticProgram) (q : List ((String × String) × ℚ)) : ℚ :=
  (q.map (quadTermUB p)).sum

/-- `_any_float`: true iff some coefficient is a non-integral number.
The dense array form only adds zero entries for absent variables, and zero is
integral, so checking the stored coefficients is equivalent. -/
def anyFloat (values : List ℚ) : Bool :=
  values.any (fun v => v.den != 1)

/-- Lines 169-175 / 223-229: under integer mode the rhs is floored for a ≤
constraint and ceiled for a ≥ constraint; otherwise it is unchanged. -/
def adjustRhs (mode : String) (sense : Sense) (rhs : ℚ) : ℚ :=
  if mode = "integer" then
    match sense with
    | Sense.le => (⌊rhs⌋ : ℚ)
    | Sense.ge => (⌈rhs⌉ : ℚ)
    | Sense.eq => rhs
  else rhs

/-- Lines 160-167 / 214-221: mode resolution. `"integer"` and `"continuous"`
pass through; `"auto"` becomes `"continuous"` when a float coefficient is
present and `"integer"` otherwise. (The `"integer"`-with-floats error is
raised by the callers before this resolution.) -/
def effectiveMode (mode : String) (af : Bool) : String :=
  if mode = "auto" then (if af then "continuous" else "integer") else mode

/-- `_delimiter = "@"`. -/
def delimiter : String := "@"

/-- The `mode_name` dict `{"integer": "int", "continuous": "continuous"}`;
`none` models the Python `KeyError` on any other key. -/
def modeName (mode : String) : Option String :=
  if mode = "integer" then some "int"
  else if mode = "continuous" then some "continuous"
  else none

/-- `new_linear[slack_name] = sign`: insertion of a fresh key into the
coefficient dict (the slack name is new, so it is appended). -/
def setCoeff (l : List (String × ℚ)) (n : String) (c : ℚ) : List (String × ℚ) :=
  l ++ [(n, c)]

/-- The argument tuple collected for each rewritten linear constraint. -/
structure LinArgs where
  linear : List (String × ℚ)
  sense : Sense
  rhs : ℚ
  name : String
deriving DecidableEq, Repr

/-- The argument tuple collected for each rewritten quadratic constraint. -/
structure QuadArgs where
  linear : List (String × ℚ)
  quadratic : List ((String × String) × ℚ)
  sense : Sense
  rhs : ℚ
  name : String
deriving DecidableEq, Repr

/-- The slack upper bound computed at lines 181-190 (resp. 236-245), for an
already-resolved mode: `new_rhs - lhs_lb` for ≤ and `lhs_ub - new_rhs` for ≥.
For EQ the Python initialisation `var_ub = 0.0` is never changed. -/
def coreLinSlackUB (mode : String) (src : QuadraticProgram) (c : LinearConstraint) : ℚ :=
  match c.sense with
  | Sense.le => adjustRhs mode c.sense c.rhs - linLowerBound src c.linear
  | Sense.ge => linUpperBound src c.linear - adjustRhs mode c.sense c.rhs
  | Sense.eq => 0

/-- Quadratic counterpart of `coreLinSlackUB`: the interval bound of the lhs
is the sum of the linear and quadratic expression bounds (lines 231-234). -/
def coreQuadSlackUB (mode : String) (src : QuadraticProgram) (c : QuadraticConstraint) : ℚ :=
  match c.sense with
  | Sense.le =>
      adjustRhs mode c.sense c.rhs -
        (linLowerBound src c.linear + quadLowerBound src c.quadratic)
  | Sense.ge =>
      (linUpperBound src c.linear + quadUpperBound src c.quadratic) -
        adjustRhs mode c.sense c.rhs
  | Sense.eq => 0

/-- The slack coefficient `sign` (lines 181-190): `+1` for ≤ and `-1` for ≥
when a slack is needed, `0` otherwise. -/
def slackSign (sense : Sense) (varUB : ℚ) : ℚ :=
  match sense with
  | Sense.le => if varUB > 0 then 1 else 0
  | Sense.ge => if varUB > 0 then -1 else 0
  | Sense.eq => 0

/-- Body of `_add_slack_var_linear_constraint` after mode resolution
(lines 169-202): adjust the rhs, compute the slack upper bound, and when it
is positive create the slack variable on `dst` and add the signed slack term
to the linear dict; the emitted tuple always has sense `"=="`. -/
def addSlackVarLinearCore (mode : String) (src dst : QuadraticProgram)
    (c : LinearConstraint) : Except ConvError (QuadraticProgram × LinArgs) :=
  let newRhs := adjustRhs mode c.sense c.rhs
  let varUB := coreLinSlackUB mode src c
  if varUB > 0 then
    match modeName mode with
    | none => Except.error ConvError.keyError
    | some tag =>
      let slackName := c.name ++ delimiter ++ tag ++ "_slack"
      let dst1 :=
        if mode = "integer" then integerVar dst slackName 0 varUB
        else if mode = "continuous" then continuousVar dst slackName 0 varUB
        else dst
      Except.ok (dst1, ⟨setCoeff c.linear slackName (slackSign c.sense varUB),
                        Sense.eq, newRhs, c.name⟩)
  else
    Except.ok (dst, ⟨c.linear, Sense.eq, newRhs, c.name⟩)

/-- `_add_slack_var_linear_constraint` (lines 151-202): check the
integer-mode float restriction, resolve the mode, then run the core. -/
def addSlackVarLinearConstraint (mode : String) (src dst : QuadraticProgram)
    (c : LinearConstraint) : Except ConvError (QuadraticProgram × LinArgs) :=
  let af := anyFloat (c.linear.map Prod.snd)
  if mode = "integer" ∧ af = true then
    Except.error (ConvError.incompatibleSlackMode c.name)
  else
    addSlackVarLinearCore (effectiveMode mode af) src dst c

/-- Body of `_add_slack_var_quadratic_constraint` after mode resolution
(lines 223-257). -/
def addSlackVarQuadraticCore (mode : String) (src dst : QuadraticProgram)
    (c : QuadraticConstraint) : Except ConvError (QuadraticProgram × QuadArgs) :=
  let newRhs := adjustRhs mode c.sense c.rhs
  let varUB := coreQuadSlackUB mode src c
  if varUB > 0 then
    match modeName mode with
    | none => Except.error ConvError.keyError
    | some tag =>
      let slackName := c.name ++ delimiter ++ tag ++ "_slack"
      let dst1 :=
        if mode = "integer" then integerVar dst slackName 0 varUB
        else if mode = "continuous" then continuousVar dst slackName 0 varUB
        else dst
      Except.ok (dst1, ⟨setCoeff c.linear slackName (slackSign c.sense varUB),
                        c.quadratic, Sense.eq, newRhs, c.name⟩)
  else
    Except.ok (dst, ⟨c.linear, c.quadratic, Sense.eq, newRhs, c.name⟩)

/-- `_add_slack_var_quadratic_constraint` (lines 204-257): the float check
covers both the linear and the quadratic coefficients. -/
def addSlackVarQuadraticConstraint (mode : String) (src dst : QuadraticProgram)
    (c : QuadraticConstraint) : Except ConvError (QuadraticProgram × QuadArgs) :=
  let af := anyFloat (c.linear.map Prod.snd) || anyFloat (c.quadratic.map Prod.snd)
  if mode = "integer" ∧ af = true then
    Except.error (ConvError.incompatibleSlackMode c.name)
  else
    addSlackVarQuadraticCore (effectiveMode mode af) src dst c

/-- Lines 80-90: copy one source variable into the destination model.
Binary variables are re-registered via `binary_var` (bounds 0 and 1);
integer and continuous variables keep their bounds. The unsupported-kind
branch is unreachable for the closed `VarType`. -/
def copyVariable (dst : QuadraticProgram) (v : Variable) : QuadraticProgram :=
  match v.vartype with
  | VarType.binary => binaryVar dst v.name
  | VarType.integer => integerVar dst v.name v.lowerbound v.upperbound
  | VarType.continuous => continuousVar dst v.name v.lowerbound v.upperbound

/-- The image of a source variable in the destination model. -/
def copyVar (v : Variable) : Variable :=
  match v.vartype with
  | VarType.binary => ⟨v.name, VarType.binary, 0, 1⟩
  | _ => v

/-- Lines 94-107: walk the linear constraints, copying EQ constraints
unchanged and sending ≤/≥ through the slack-injection helper, which mutates
`dst` by adding slack variables. On failure the partially mutated `dst` is
returned together with the error (the Python `self._dst` keeps that state). -/
def processLinearConstraints (mode : String) (src : QuadraticProgram) :
    QuadraticProgram → List LinearConstraint →
    QuadraticProgram × Except ConvError (List LinArgs)
  | dst, [] => (dst, Except.ok [])
  | dst, c :: rest =>
    match c.sense with
    | Sense.eq =>
      match processLinearConstraints mode src dst rest with
      | (dst1, Except.ok args) =>
          (dst1, Except.ok (⟨c.linear, c.sense, c.rhs, c.name⟩ :: args))
      | (dst1, Except.error e) => (dst1, Except.error e)
    | _ =>
      match addSlackVarLinearConstraint mode src dst c with
      | Except.ok (dst1, a) =>
        match processLinearConstraints mode src dst1 rest with
        | (dst2, Except.ok args) => (dst2, Except.ok (a :: args))
        | (dst2, Except.error e) => (dst2, Except.error e)
      | Except.error e => (dst, Except.error e)

/-- Lines 109-130: the same walk over the quadratic constraints. -/
def processQuadraticConstraints (mode : String) (src : QuadraticProgram) :
    QuadraticProgram → List QuadraticConstraint →
    QuadraticProgram × Except ConvError (List QuadArgs)
  | dst, [] => (dst, Except.ok [])
  | dst, c :: rest =>
    match c.sense with
    | Sense.eq =>
      match processQuadraticConstraints mode src dst rest with
      | (dst1, Except.ok args) =>
          (dst1, Except.ok (⟨c.linear, c.quadratic, c.sense, c.rhs, c.name⟩ :: args))
      | (dst1, Except.error e) => (dst1, Except.error e)
    | _ =>
      match addSlackVarQuadraticConstraint mode src dst c with
      | Except.ok (dst1, a) =>
        match processQuadraticConstraints mode src dst1 rest with
        | (dst2, Except.ok args) => (dst2, Except.ok (a :: args))
        | (dst2, Except.error e) => (dst2, Except.error e)
      | Except.error e => (dst, Except.error e)

/-- Lines 132-139: copy the objective (constant, linear, quadratic, sense). -/
def setObjective (dst : QuadraticProgram) (o : Objective) : QuadraticProgram :=
  { dst with objective := o }

/-- Modelled from the spec: `linear_constraint(...)` of the external problem
container appends the constraint. -/
def addLinearConstraintArgs (dst : QuadraticProgram) (a : LinArgs) : QuadraticProgram :=
  { dst with linearConstraints := dst.linearConstraints ++ [⟨a.linear, a.sense, a.rhs, a.name⟩] }

/-- Modelled from the spec: `quadratic_constraint(...)`. -/
def addQuadraticConstraintArgs (dst : QuadraticProgram) (a : QuadArgs) : QuadraticProgram :=
  { dst with quadraticConstraints :=
      dst.quadraticConstraints ++ [⟨a.linear, a.quadratic, a.sense, a.rhs, a.name⟩] }

/-- The converter's instance state: `_src`, `_dst` (both `None` before the
first convert) and `_mode`. -/
structure ConverterState where
  src : Option QuadraticProgram
  dst : Option QuadraticProgram
  mode : String
deriving DecidableEq, Repr

/-- Line 76: the accepted configured modes. -/
def validMode (m : String) : Bool :=
  m = "integer" || m = "continuous" || m = "auto"

/-- `convert` (lines 57-149), as a state transition. `self._src` is set to a
deep copy of the input and `self._dst` to a fresh empty program *before* the
mode check, so a failing call still overwrites both; on a slack-injection
failure `self._dst` holds the partially built model. The returned
`Except` is the Python return value / raised error. -/
def convert (s : ConverterState) (problem : QuadraticProgram) :
    ConverterState × Except ConvError QuadraticProgram :=
  if validMode s.mode = false then
    ({ s with src := some problem, dst := some (emptyProgram problem.name) },
     Except.error (ConvError.unsupportedMode s.mode))
  else
    let dst1 := problem.vars.foldl copyVariable (emptyProgram problem.name)
    match processLinearConstraints s.mode problem dst1 problem.linearConstraints with
    | (dst2, Except.error e) =>
        ({ s with src := some problem, dst := some dst2 }, Except.error e)
    | (dst2, Except.ok linArgs) =>
      match processQuadraticConstraints s.mode problem dst2 problem.quadraticConstraints with
      | (dst3, Except.error e) =>
          ({ s with src := some problem, dst := some dst3 }, Except.error e)
      | (dst3, Except.ok quadArgs) =>
        let dst4 := setObjective dst3 problem.objective
        let dst5 := linArgs.foldl addLinearConstraintArgs dst4
        let dst6 := quadArgs.foldl addQuadraticConstraintArgs dst5
        ({ s with src := some problem, dst := some dst6 }, Except.ok dst6)

/-- The `mode` property setter (lines 302-309): it stores the value with no
validation, so it never raises. -/
def setMode (s : ConverterState) (m : String) : ConverterState :=
  { s with mode := m }

/-- The dict comprehension `{name: x[i] for i, name in enumerate(names)}`:
a later duplicate key overwrites an earlier one, so lookup returns the value
at the *last* occurrence of the name. -/
def lookupAux (n : String) (acc : Option ℚ) : List (String × ℚ) → Option ℚ
  | [] => acc
  | t :: l => lookupAux n (if t.1 = n then some t.2 else acc) l

/-- Lookup of the last binding of a key in an association list. -/
def lookupLast (l : List (String × ℚ)) (n : String) : Option ℚ :=
  lookupAux n none l

/-- The loop of `interpret` (lines 276-277): each source variable's value is
looked up by name; a missing name is the Python `KeyError` (`none`). -/
def interpretVals (sol : String → Option ℚ) : List Variable → Option (List ℚ)
  | [] => some []
  | v :: vs =>
    match sol v.name, interpretVals sol vs with
    | some r, some rs => some (r :: rs)
    | _, _ => none

/-- `interpret` (lines 259-278) for a given source/destination pair: zip the
destination variable names with `x` into a name-to-value dict, then read the
source variables' values out of it in source order. -/
def interpret (src dst : QuadraticProgram) (x : List ℚ) : Option (List ℚ) :=
  let names := dst.vars.map Variable.name
  interpretVals (fun n => lookupLast (names.zip x) n) src.vars

/-- `interpret` on the converter state: `ValueError` when no convert has run. -/
def interpretState (s : ConverterState) (x : List ℚ) : Except ConvError (List ℚ) :=
  match s.src, s.dst with
  | some src, some dst =>
    match interpret src dst x with
    | some r => Except.ok r
    | none => Except.error ConvError.keyError
  | _, _ => Except.error ConvError.uninitialized

/-- Evaluation of a linear coefficient dict under a valuation of the
variable names. -/
def evalLin (val : String → ℚ) (l : List (String × ℚ)) : ℚ :=
  (l.map (fun t => t.2 * val t.1)).sum

/-- The valuation that achieves the interval lower bound of a linear
expression: each variable sits at its lower bound when its coefficient is
nonnegative and at its upper bound otherwise. -/
def minimizingVal (p : QuadraticProgram) (l : List (String × ℚ)) (n : String) : ℚ :=
  match findVar p n, lookupLast l n with
  | some v, some cf => if 0 ≤ cf then v.lowerbound else v.upperbound
  | some v, none => v.lowerbound
  | none, _ => 0

/-- The valuation that achieves the interval upper bound of a linear
expression. -/
def maximizingVal (p : QuadraticProgram) (l : List (String × ℚ)) (n : String) : ℚ :=
  match findVar p n, lookupLast l n with
  | some v, some cf => if 0 ≤ cf then v.upperbound else v.lowerbound
  | some v, none => v.upperbound
  | none, _ => 0

/-- The slack upper bound a ≤/≥ linear constraint gets under a configured
mode, after mode resolution. -/
def linSlackUB (mode : String) (src : QuadraticProgram) (c : LinearConstraint) : ℚ :=
  coreLinSlackUB (effectiveMode mode (anyFloat (c.linear.map Prod.snd))) src c

/-- The slack upper bound a ≤/≥ quadratic constraint gets under a configured
mode, after mode resolution. -/
def quadSlackUB (mode : String) (src : QuadraticProgram) (c : QuadraticConstraint) : ℚ :=
  coreQuadSlackUB
    (effectiveMode mode (anyFloat (c.linear.map Prod.snd) || anyFloat (c.quadratic.map Prod.snd)))
    src c

/-- The name given to the slack variable of a constraint for a resolved mode. -/
def slackNameOf (mode : String) (cname : String) : String :=
  cname ++ delimiter ++ ((modeName mode).getD "") ++ "_slack"

section StructuralLemmas

lemma binaryVar_vars (p : QuadraticProgram) (n : String) :
    (binaryVar p n).vars = p.vars ++ [⟨n, VarType.binary, 0, 1⟩] := rfl

lemma integerVar_vars (p : QuadraticProgram) (n : String) (lb ub : ℚ) :
    (integerVar p n lb ub).vars = p.vars ++ [⟨n, VarType.integer, lb, ub⟩] := rfl

lemma continuousVar_vars (p : QuadraticProgram) (n : String) (lb ub : ℚ) :
    (continuousVar p n lb ub).vars = p.vars ++ [⟨n, VarType.continuous, lb, ub⟩] := rfl

lemma copyVariable_vars (dst : QuadraticProgram) (v : Variable) :
    (copyVariable dst v).vars = dst.vars ++ [copyVar v] := by
  cases v with
  | mk name ty lb ub => cases ty <;> rfl

lemma copyVariable_lin (dst : QuadraticProgram) (v : Variable) :
    (copyVariable dst v).linearConstraints = dst.linearConstraints := by
  cases v with
  | mk name ty lb ub => cases ty <;> rfl

lemma copyVariable_quad (dst : QuadraticProgram) (v : Variable) :
    (copyVariable dst v).quadraticConstraints = dst.quadraticConstraints := by
  cases v with
  | mk name ty lb ub => cases ty <;> rfl

lemma foldl_copyVariable_vars (vs : List Variable) :
    ∀ dst : QuadraticProgram,
      (vs.foldl copyVariable dst).vars = dst.vars ++ vs.map copyVar := by
  induction vs with
  | nil => intro dst; simp
  | cons v vs ih =>
    intro dst
    simp only [List.foldl_cons, List.map_cons, ih, copyVariable_vars,
      List.append_assoc, List.cons_append, List.nil_append]

lemma foldl_copyVariable_lin (vs : List Variable) :
    ∀ dst : QuadraticProgram,
      (vs.foldl copyVariable dst).linearConstraints = dst.linearConstraints := by
  induction vs with
  | nil => intro dst; rfl
  | cons v vs ih => intro dst; simp only [List.foldl_cons, ih, copyVariable_lin]

lemma foldl_copyVariable_quad (vs : List Variable) :
    ∀ dst : QuadraticProgram,
      (vs.foldl copyVariable dst).quadraticConstraints = dst.quadraticConstraints := by
  induction vs with
  | nil => intro dst; rfl
  | cons v vs ih => intro dst; simp only [List.foldl_cons, ih, copyVariable_quad]

lemma copyVar_name (v : Variable) : (copyVar v).name = v.name := by
  cases v with
  | mk name ty lb ub => cases ty <;> rfl

lemma addSlackVarLinearCore_ok (m : String) (src dst : QuadraticProgram)
    (c : LinearConstraint) (d1 : QuadraticProgram) (a : LinArgs)
    (h : addSlackVarLinearCore m src dst c = Except.ok (d1, a)) :
    a.sense = Sense.eq ∧ a.rhs = adjustRhs m c.sense c.rhs ∧ a.name = c.name ∧
    (∃ svs, d1.vars = dst.vars ++ svs) ∧
    d1.linearConstraints = dst.linearConstraints ∧
    d1.quadraticConstraints = dst.quadraticConstraints := by
  simp only [addSlackVarLinearCore] at h
  split at h
  · split at h
    · exact absurd h (by simp)
    · simp only [Except.ok.injEq, Prod.mk.injEq] at h
      obtain ⟨hd, ha⟩ := h
      subst hd
      subst ha
      refine ⟨rfl, rfl, rfl, ?_, ?_, ?_⟩ <;>
        [skip; split_ifs <;> rfl; split_ifs <;> rfl]
      split_ifs
      · exact ⟨_, rfl⟩
      · exact ⟨_, rfl⟩
      · exact ⟨[], by simp⟩
  · simp only [Except.ok.injEq, Prod.mk.injEq] at h
    obtain ⟨hd, ha⟩ := h
    subst hd
    subst ha
    exact ⟨rfl, rfl, rfl, ⟨[], by simp⟩, rfl, rfl⟩

lemma addSlackVarLinearCore_ok_pos (m : String) (src dst : QuadraticProgram)
    (c : LinearConstraint) (d1 : QuadraticProgram) (a : LinArgs)
    (h : addSlackVarLinearCore m src dst c = Except.ok (d1, a))
    (hpos : coreLinSlackUB m src c > 0) :
    a.linear =
      setCoeff c.linear (slackNameOf m c.name)
        (slackSign c.sense (coreLinSlackUB m src c)) := by
  simp only [addSlackVarLinearCore] at h
  rw [if_pos hpos] at h
  split at h
  · exact absurd h (by simp)
  · rename_i tag htag
    simp only [Except.ok.injEq, Prod.mk.injEq] at h
    obtain ⟨hd, ha⟩ := h
    subst ha
    simp [slackNameOf, htag]

lemma addSlackVarLinearCore_ok_nonpos (m : String) (src dst : QuadraticProgram)
    (c : LinearConstraint) (d1 : QuadraticProgram) (a : LinArgs)
    (h : addSlackVarLinearCore m src dst c = Except.ok (d1, a))
    (hle : coreLinSlackUB m src c ≤ 0) :
    d1 = dst ∧ a = ⟨c.linear, Sense.eq, adjustRhs m c.sense c.rhs, c.name⟩ := by
  simp only [addSlackVarLinearCore] at h
  rw [if_neg (by exact not_lt.mpr hle)] at h
  simp only [Except.ok.injEq, Prod.mk.injEq] at h
  exact ⟨h.1.symm, h.2.symm⟩

lemma addSlackVarQuadraticCore_ok (m : String) (src dst : QuadraticProgram)
    (c : QuadraticConstraint) (d1 : QuadraticProgram) (a : QuadArgs)
    (h : addSlackVarQuadraticCore m src dst c = Except.ok (d1, a)) :
    a.sense = Sense.eq ∧ a.rhs = adjustRhs m c.sense c.rhs ∧ a.name = c.name ∧
    (∃ svs, d1.vars = dst.vars ++ svs) ∧
    d1.linearConstraints = dst.linearConstraints ∧
    d1.quadraticConstraints = dst.quadraticConstraints := by
  simp only [addSlackVarQuadraticCore] at h
  split at h
  · split at h
    · exact absurd h (by simp)
    · simp only [Except.ok.injEq, Prod.mk.injEq] at h
      obtain ⟨hd, ha⟩ := h
      subst hd
      subst ha
      refine ⟨rfl, rfl, rfl, ?_, ?_, ?_⟩ <;>
        [skip; split_ifs <;> rfl; split_ifs <;> rfl]
      split_ifs
      · exact ⟨_, rfl⟩
      · exact ⟨_, rfl⟩
      · exact ⟨[], by simp⟩
  · simp only [Except.ok.injEq, Prod.mk.injEq] at h
    obtain ⟨hd, ha⟩ := h
    subst hd
    subst ha
    exact ⟨rfl, rfl, rfl, ⟨[], by simp⟩, rfl, rfl⟩

lemma addSlackVarQuadraticCore_ok_nonpos (m : String) (src dst : QuadraticProgram)
    (c : QuadraticConstraint) (d1 : QuadraticProgram) (a : QuadArgs)
    (h : addSlackVarQuadraticCore m src dst c = Except.ok (d1, a))
    (hle : coreQuadSlackUB m src c ≤ 0) :
    d1 = dst ∧
      a = ⟨c.linear, c.quadratic, Sense.eq, adjustRhs m c.sense c.rhs, c.name⟩ := by
  simp only [addSlackVarQuadraticCore] at h
  rw [if_neg (by exact not_lt.mpr hle)] at h
  simp only [Except.ok.injEq, Prod.mk.injEq] at h
  exact ⟨h.1.symm, h.2.symm⟩

lemma addSlackVarLinearConstraint_ok (mode : String) (src dst : QuadraticProgram)
    (c : LinearConstraint) (d1 : QuadraticProgram) (a : LinArgs)
    (h : addSlackVarLinearConstraint mode src dst c = Except.ok (d1, a)) :
    addSlackVarLinearCore
      (effectiveMode mode (anyFloat (c.linear.map Prod.snd))) src dst c =
      Except.ok (d1, a) := by
  simp only [addSlackVarLinearConstraint] at h
  split at h
  · exact absurd h (by simp)
  · exact h

lemma addSlackVarQuadraticConstraint_ok (mode : String) (src dst : QuadraticProgram)
    (c : QuadraticConstraint) (d1 : QuadraticProgram) (a : QuadArgs)
    (h : addSlackVarQuadraticConstraint mode src dst c = Except.ok (d1, a)) :
    addSlackVarQuadraticCore
      (effectiveMode mode
        (anyFloat (c.linear.map Prod.snd) || anyFloat (c.quadratic.map Prod.snd)))
      src dst c = Except.ok (d1, a) := by
  simp only [addSlackVarQuadraticConstraint] at h
  split at h
  · exact absurd h (by simp)
  · exact h

lemma processLinearConstraints_ok (mode : String) (src : QuadraticProgram)
    (cs : List LinearConstraint) :
    ∀ (dst dst1 : QuadraticProgram) (args : List LinArgs),
      processLinearConstraints mode src dst cs = (dst1, Except.ok args) →
      (∃ svs, dst1.vars = dst.vars ++ svs) ∧
      dst1.linearConstraints = dst.linearConstraints ∧
      dst1.quadraticConstraints = dst.quadraticConstraints ∧
      ∀ a ∈ args, a.sense = Sense.eq := by
  induction cs with
  | nil =>
    intro dst dst1 args h
    simp only [processLinearConstraints, Prod.mk.injEq, Except.ok.injEq] at h
    obtain ⟨h1, h2⟩ := h
    subst h1
    subst h2
    exact ⟨⟨[], by simp⟩, rfl, rfl, by simp⟩
  | cons c rest ih =>
    intro dst dst1 args h
    simp only [processLinearConstraints] at h
    split at h
    · rename_i hsense
      split at h
      · rename_i dstm argsm hm
        simp only [Prod.mk.injEq, Except.ok.injEq] at h
        obtain ⟨h1, h2⟩ := h
        subst h1
        subst h2
        obtain ⟨hv, hl, hq, hs⟩ := ih dst dstm argsm hm
        refine ⟨hv, hl, hq, ?_⟩
        intro a ha
        rcases List.mem_cons.mp ha with ha | ha
        · subst ha; exact hsense
        · exact hs a ha
      · exact absurd h (by simp)
    · split at h
      · rename_i hadd
        split at h
        · rename_i hm
          simp only [Prod.mk.injEq, Except.ok.injEq] at h
          obtain ⟨h1, h2⟩ := h
          subst h1
          subst h2
          obtain ⟨hsense, -, -, ⟨svs0, hv0⟩, hl0, hq0⟩ :=
            addSlackVarLinearCore_ok _ src dst c _ _
              (addSlackVarLinearConstraint_ok mode src dst c _ _ hadd)
          obtain ⟨⟨svs1, hv1⟩, hl1, hq1, hs1⟩ := ih _ _ _ hm
          refine ⟨⟨svs0 ++ svs1, by rw [hv1, hv0, List.append_assoc]⟩,
            by rw [hl1, hl0], by rw [hq1, hq0], ?_⟩
          intro b hb
          rcases List.mem_cons.mp hb with hb | hb
          · subst hb; exact hsense
          · exact hs1 b hb
        · exact absurd h (by simp)
      · exact absurd h (by simp)

lemma processQuadraticConstraints_ok (mode : String) (src : QuadraticProgram)
    (cs : List QuadraticConstraint) :
    ∀ (dst dst1 : QuadraticProgram) (args : List QuadArgs),
      processQuadraticConstraints mode src dst cs = (dst1, Except.ok args) →
      (∃ svs, dst1.vars = dst.vars ++ svs) ∧
      dst1.linearConstraints = dst.linearConstraints ∧
      dst1.quadraticConstraints = dst.quadraticConstraints ∧
      ∀ a ∈ args, a.sense = Sense.eq := by
  induction cs with
  | nil =>
    intro dst dst1 args h
    simp only [processQuadraticConstraints, Prod.mk.injEq, Except.ok.injEq] at h
    obtain ⟨h1, h2⟩ := h
    subst h1
    subst h2
    exact ⟨⟨[], by simp⟩, rfl, rfl, by simp⟩
  | cons c rest ih =>
    intro dst dst1 args h
    simp only [processQuadraticConstraints] at h
    split at h
    · rename_i hsense
      split at h
      · rename_i dstm argsm hm
        simp only [Prod.mk.injEq, Except.ok.injEq] at h
        obtain ⟨h1, h2⟩ := h
        subst h1
        subst h2
        obtain ⟨hv, hl, hq, hs⟩ := ih dst dstm argsm hm
        refine ⟨hv, hl, hq, ?_⟩
        intro a ha
        rcases List.mem_cons.mp ha with ha | ha
        · subst ha; exact hsense
        · exact hs a ha
      · exact absurd h (by simp)
    · split at h
      · rename_i hadd
        split at h
        · rename_i hm
          simp only [Prod.mk.injEq, Except.ok.injEq] at h
          obtain ⟨h1, h2⟩ := h
          subst h1
          subst h2
          obtain ⟨hsense, -, -, ⟨svs0, hv0⟩, hl0, hq0⟩ :=
            addSlackVarQuadraticCore_ok _ src dst c _ _
              (addSlackVarQuadraticConstraint_ok mode src dst c _ _ hadd)
          obtain ⟨⟨svs1, hv1⟩, hl1, hq1, hs1⟩ := ih _ _ _ hm
          refine ⟨⟨svs0 ++ svs1, by rw [hv1, hv0, List.append_assoc]⟩,
            by rw [hl1, hl0], by rw [hq1, hq0], ?_⟩
          intro b hb
          rcases List.mem_cons.mp hb with hb | hb
          · subst hb; exact hsense
          · exact hs1 b hb
        · exact absurd h (by simp)
      · exact absurd h (by simp)

lemma foldl_addLinearConstraintArgs (args : List LinArgs) :
    ∀ d : QuadraticProgram,
      (args.foldl addLinearConstraintArgs d).vars = d.vars ∧
      (args.foldl addLinearConstraintArgs d).linearConstraints =
        d.linearConstraints ++ args.map (fun a => ⟨a.linear, a.sense, a.rhs, a.name⟩) ∧
      (args.foldl addLinearConstraintArgs d).quadraticConstraints =
        d.quadraticConstraints := by
  induction args with
  | nil => intro d; simp
  | cons a args ih =>
    intro d
    obtain ⟨h1, h2, h3⟩ := ih (addLinearConstraintArgs d a)
    refine ⟨by simpa [addLinearConstraintArgs] using h1, ?_,
      by simpa [addLinearConstraintArgs] using h3⟩
    rw [List.foldl_cons, h2]
    simp [addLinearConstraintArgs]

lemma foldl_addQuadraticConstraintArgs (args : List QuadArgs) :
    ∀ d : QuadraticProgram,
      (args.foldl addQuadraticConstraintArgs d).vars = d.vars ∧
      (args.foldl addQuadraticConstraintArgs d).linearConstraints =
        d.linearConstraints ∧
      (args.foldl addQuadraticConstraintArgs d).quadraticConstraints =
        d.quadraticConstraints ++
          args.map (fun a => ⟨a.linear, a.quadratic, a.sense, a.rhs, a.name⟩) := by
  induction args with
  | nil => intro d; simp
  | cons a args ih =>
    intro d
    obtain ⟨h1, h2, h3⟩ := ih (addQuadraticConstraintArgs d a)
    refine ⟨by simpa [addQuadraticConstraintArgs] using h1,
      by simpa [addQuadraticConstraintArgs] using h2, ?_⟩
    rw [List.foldl_cons, h3]
    simp [addQuadraticConstraintArgs]

/-- Structure of a successful `convert`: the destination's variable list is
the copied source variables followed by the slack variables, and every
destination constraint has sense `eq`. -/
lemma convert_ok_struct (s : ConverterState) (p : QuadraticProgram)
    (s1 : ConverterState) (dst : QuadraticProgram)
    (h : convert s p = (s1, Except.ok dst)) :
    (∃ svs, dst.vars = p.vars.map copyVar ++ svs) ∧
    (∀ c ∈ dst.linearConstraints, c.sense = Sense.eq) ∧
    (∀ c ∈ dst.quadraticConstraints, c.sense = Sense.eq) := by
  simp only [convert] at h
  split at h
  · exact absurd h (by simp)
  · split at h
    · exact absurd h (by simp)
    · rename_i dst2 linArgs hpl
      split at h
      · exact absurd h (by simp)
      · rename_i dst3 quadArgs hpq
        simp only [Prod.mk.injEq, Except.ok.injEq] at h
        obtain ⟨-, h2⟩ := h
        obtain ⟨⟨svsL, hvL⟩, hlL, hqL, hsL⟩ :=
          processLinearConstraints_ok s.mode p p.linearConstraints _ _ _ hpl
        obtain ⟨⟨svsQ, hvQ⟩, hlQ, hqQ, hsQ⟩ :=
          processQuadraticConstraints_ok s.mode p p.quadraticConstraints _ _ _ hpq
        obtain ⟨hfv, hfl, hfq⟩ :=
          foldl_addLinearConstraintArgs linArgs (setObjective dst3 p.objective)
        obtain ⟨hgv, hgl, hgq⟩ :=
          foldl_addQuadraticConstraintArgs quadArgs
            (linArgs.foldl addLinearConstraintArgs (setObjective dst3 p.objective))
        subst h2
        have hso : ∀ q : QuadraticProgram,
            (setObjective q p.objective).vars = q.vars ∧
            (setObjective q p.objective).linearConstraints = q.linearConstraints ∧
            (setObjective q p.objective).quadraticConstraints = q.quadraticConstraints :=
          fun q => ⟨rfl, rfl, rfl⟩
        constructor
        · refine ⟨svsL ++ svsQ, ?_⟩
          rw [hgv, hfv, (hso dst3).1, hvQ, hvL,
            foldl_copyVariable_vars p.vars (emptyProgram p.name)]
          simp [emptyProgram, List.append_assoc]
        constructor
        · intro c hc
          rw [hgl, hfl, (hso dst3).2.1, hlQ, hlL,
            foldl_copyVariable_lin p.vars (emptyProgram p.name)] at hc
          simp only [emptyProgram, List.nil_append] at hc
          obtain ⟨a, ha, rfl⟩ := List.mem_map.mp hc
          exact hsL a ha
        · intro c hc
          rw [hgq, hfq, (hso dst3).2.2, hqQ, hqL,
            foldl_copyVariable_quad p.vars (emptyProgram p.name)] at hc
          simp only [emptyProgram, List.nil_append] at hc
          obtain ⟨a, ha, rfl⟩ := List.mem_map.mp hc
          exact hsQ a ha

end StructuralLemmas

section LookupLemmas

lemma lookupAux_not_mem (n : String) (l : List (String × ℚ))
    (hn : n ∉ l.map Prod.fst) : ∀ a, lookupAux n a l = a := by
  induction l with
  | nil => intro a; rfl
  | cons t l ih =>
    intro a
    simp only [List.map_cons, List.mem_cons, not_or] at hn
    rw [lookupAux, if_neg (fun he => hn.1 (Eq.symm he))]
    exact ih hn.2 a

lemma lookupLast_zip (names : List String) :
    ∀ (x : List ℚ) (j : ℕ) (hj : j < names.length) (hx : j < x.length),
      x.length = names.length → names.Nodup →
      lookupLast (names.zip x) (names.get ⟨j, hj⟩) = some (x.get ⟨j, hx⟩) := by
  induction names with
  | nil => intro x j hj _ _ _; exact absurd hj (by simp)
  | cons m ns ih =>
    intro x j hj hx hlen hnd
    match x with
    | a :: xs =>
      simp only [List.length_cons, Nat.add_left_inj] at hlen
      have hnd1 : m ∉ ns := (List.nodup_cons.mp hnd).1
      have hnd2 : ns.Nodup := (List.nodup_cons.mp hnd).2
      match j with
      | 0 =>
        simp only [List.zip_cons_cons, List.get, lookupLast, lookupAux, if_pos rfl]
        have : m ∉ (ns.zip xs).map Prod.fst := by
          rw [List.map_fst_zip ns xs (by omega)]
          exact hnd1
        exact lookupAux_not_mem m (ns.zip xs) this (some a)
      | j + 1 =>
        simp only [List.zip_cons_cons, List.get, lookupLast, lookupAux]
        have hjn : j < ns.length := by simpa using hj
        have hne : ¬ m = ns.get ⟨j, hjn⟩ := by
          intro he
          exact hnd1 (he.symm ▸ List.get_mem ns j hjn)
        rw [if_neg hne]
        exact ih xs j hjn (by simpa using hx) hlen hnd2

lemma interpretVals_eq (sol : String → Option ℚ) (vs : List Variable)
    (h : ∀ v ∈ vs, (sol v.name).isSome) :
    interpretVals sol vs = some (vs.map (fun v => (sol v.name).getD 0)) := by
  induction vs with
  | nil => rfl
  | cons v vs ih =>
    obtain ⟨r, hr⟩ := Option.isSome_iff_exists.mp (h v (List.mem_cons_self v vs))
    rw [List.map_cons, interpretVals, hr,
      ih (fun w hw => h w (List.mem_cons_of_mem v hw))]
    simp [hr]

end LookupLemmas

section EvalLemmas

lemma lookupLast_cons_ne (t : String × ℚ) (l : List (String × ℚ)) (n : String)
    (h : t.1 ≠ n) : lookupLast (t :: l) n = lookupLast l n := by
  rw [lookupLast, lookupAux, if_neg h]
  rfl

lemma lookupLast_cons_not_mem (t : String × ℚ) (l : List (String × ℚ))
    (h : t.1 ∉ l.map Prod.fst) : lookupLast (t :: l) t.1 = some t.2 := by
  rw [lookupLast, lookupAux, if_pos rfl]
  exact lookupAux_not_mem t.1 l h (some t.2)

lemma evalLin_congr (val val' : String → ℚ) (l : List (String × ℚ))
    (h : ∀ t ∈ l, val t.1 = val' t.1) : evalLin val l = evalLin val' l := by
  induction l with
  | nil => rfl
  | cons t l ih =>
    simp only [evalLin, List.map_cons, List.sum_cons]
    rw [h t (List.mem_cons_self t l)]
    have := ih (fun s hs => h s (List.mem_cons_of_mem t hs))
    simp only [evalLin] at this
    rw [this]

lemma evalLin_append_single (val : String → ℚ) (l : List (String × ℚ))
    (n : String) (cf : ℚ) :
    evalLin val (l ++ [(n, cf)]) = evalLin val l + cf * val n := by
  simp [evalLin]

lemma minimizingVal_cons (p : QuadraticProgram) (t : String × ℚ)
    (l : List (String × ℚ)) (n : String) (h : t.1 ≠ n) :
    minimizingVal p (t :: l) n = minimizingVal p l n := by
  rw [minimizingVal, minimizingVal, lookupLast_cons_ne t l n h]

lemma maximizingVal_cons (p : QuadraticProgram) (t : String × ℚ)
    (l : List (String × ℚ)) (n : String) (h : t.1 ≠ n) :
    maximizingVal p (t :: l) n = maximizingVal p l n := by
  rw [maximizingVal, maximizingVal, lookupLast_cons_ne t l n h]

/-- At the minimizing valuation, a linear expression evaluates to its
interval lower bound. -/
lemma evalLin_minimizingVal (p : QuadraticProgram) (l : List (String × ℚ))
    (hnd : (l.map Prod.fst).Nodup)
    (hfind : ∀ t ∈ l, (findVar p t.1).isSome)
    (hb : ∀ v ∈ p.vars, v.lowerbound ≤ v.upperbound) :
    evalLin (minimizingVal p l) l = linLowerBound p l := by
  induction l with
  | nil => rfl
  | cons t l ih =>
    simp only [List.map_cons, List.nodup_cons] at hnd
    obtain ⟨v, hv⟩ := Option.isSome_iff_exists.mp (hfind t (List.mem_cons_self t l))
    have hvmem : v ∈ p.vars := List.mem_of_find?_eq_some hv
    have hvb : v.lowerbound ≤ v.upperbound := hb v hvmem
    have hlk : lookupLast (t :: l) t.1 = some t.2 :=
      lookupLast_cons_not_mem t l hnd.1
    simp only [evalLin, List.map_cons, List.sum_cons, linLowerBound]
    have htail : evalLin (minimizingVal p (t :: l)) l = evalLin (minimizingVal p l) l := by
      refine evalLin_congr _ _ l (fun s hs => ?_)
      have hne : t.1 ≠ s.1 := by
        intro he
        exact hnd.1 (he ▸ List.mem_map_of_mem Prod.fst hs)
      exact minimizingVal_cons p t l s.1 hne
    have hterm : t.2 * minimizingVal p (t :: l) t.1 = termLB p t := by
      simp only [minimizingVal, hlk, termLB, hv]
      by_cases h0 : 0 ≤ t.2
      · rw [if_pos h0, min_eq_left (mul_le_mul_of_nonneg_left hvb h0)]
      · rw [if_neg h0,
          min_eq_right (mul_le_mul_of_nonpos_left hvb (le_of_not_le h0))]
    rw [hterm]
    have := ih hnd.2 (fun s hs => hfind s (List.mem_cons_of_mem t hs))
    simp only [evalLin, linLowerBound] at htail this ⊢
    rw [htail, this]

/-- At the maximizing valuation, a linear expression evaluates to its
interval upper bound. -/
lemma evalLin_maximizingVal (p : QuadraticProgram) (l : List (String × ℚ))
    (hnd : (l.map Prod.fst).Nodup)
    (hfind : ∀ t ∈ l, (findVar p t.1).isSome)
    (hb : ∀ v ∈ p.vars, v.lowerbound ≤ v.upperbound) :
    evalLin (maximizingVal p l) l = linUpperBound p l := by
  induction l with
  | nil => rfl
  | cons t l ih =>
    simp only [List.map_cons, List.nodup_cons] at hnd
    obtain ⟨v, hv⟩ := Option.isSome_iff_exists.mp (hfind t (List.mem_cons_self t l))
    have hvmem : v ∈ p.vars := List.mem_of_find?_eq_some hv
    have hvb : v.lowerbound ≤ v.upperbound := hb v hvmem
    have hlk : lookupLast (t :: l) t.1 = some t.2 :=
      lookupLast_cons_not_mem t l hnd.1
    simp only [evalLin, List.map_cons, List.sum_cons, linUpperBound]
    have htail : evalLin (maximizingVal p (t :: l)) l = evalLin (maximizingVal p l) l := by
      refine evalLin_congr _ _ l (fun s hs => ?_)
      have hne : t.1 ≠ s.1 := by
        intro he
        exact hnd.1 (he ▸ List.mem_map_of_mem Prod.fst hs)
      exact maximizingVal_cons p t l s.1 hne
    have hterm : t.2 * maximizingVal p (t :: l) t.1 = termUB p t := by
      simp only [maximizingVal, hlk, termUB, hv]
      by_cases h0 : 0 ≤ t.2
      · rw [if_pos h0, max_eq_right (mul_le_mul_of_nonneg_left hvb h0)]
      · rw [if_neg h0,
          max_eq_left (mul_le_mul_of_nonpos_left hvb (le_of_not_le h0))]
    rw [hterm]
    have := ih hnd.2 (fun s hs => hfind s (List.mem_cons_of_mem t hs))
    simp only [evalLin, linUpperBound] at htail this ⊢
    rw [htail, this]

end EvalLemmas

section ConcreteExample

/-- A concrete model: one continuous variable `x ∈ [0, 10]` and the linear
constraint `x ≤ 7`, used to instantiate the universally quantified theorems. -/
def exProg : QuadraticProgram :=
  ⟨"ex", [⟨"x", VarType.continuous, 0, 10⟩],
   [⟨[("x", 1)], Sense.le, 7, "c1"⟩], [],
   ⟨0, [], [], ObjSense.minimize⟩⟩

/-- The destination model `convert` builds for `exProg` under `"auto"` mode:
the coefficient 1 is integral, so the slack is an integer variable with
upper bound `7 - 0 = 7`. -/
def exDst : QuadraticProgram :=
  ⟨"ex", [⟨"x", VarType.continuous, 0, 10⟩,
          ⟨"c1@int_slack", VarType.integer, 0, 7⟩],
   [⟨[("x", 1), ("c1@int_slack", 1)], Sense.eq, 7, "c1"⟩], [],
   ⟨0, [], [], ObjSense.minimize⟩⟩

/-- A fresh converter configured with the default `"auto"` mode. -/
def exState : ConverterState := ⟨none, none, "auto"⟩

lemma exConvert :
    convert exState exProg = (⟨some exProg, some exDst, "auto"⟩, Except.ok exDst) := by
  norm_num [convert, exState, exProg, exDst, validMode, emptyProgram, copyVariable,
    processLinearConstraints, processQuadraticConstraints,
    addSlackVarLinearConstraint, addSlackVarLinearCore, anyFloat,
    effectiveMode, adjustRhs, coreLinSlackUB, linLowerBound, linUpperBound,
    termLB, termUB, findVar, modeName, delimiter, setCoeff, slackSign,
    continuousVar, integerVar, binaryVar, setObjective,
    addLinearConstraintArgs, addQuadraticConstraintArgs]
  constructor <;> rfl

end ConcreteExample

section Claims

/-- C1: for every input model, every constraint (linear and quadratic) in the
model returned by a successful `convert` has sense equal: EQ constraints are
copied with their sense and ≤/≥ constraints are emitted with sense forced to
equal. -/
theorem equality_only_output (s s1 : ConverterState) (p dst : QuadraticProgram)
    (hc : convert s p = (s1, Except.ok dst)) :
    (∀ c ∈ dst.linearConstraints, c.sense = Sense.eq) ∧
    (∀ c ∈ dst.quadraticConstraints, c.sense = Sense.eq) := by
  obtain ⟨-, hl, hq⟩ := convert_ok_struct s p s1 dst hc
  exact ⟨hl, hq⟩

/-- Witness for C1 at the concrete model `exProg`. -/
theorem equality_only_output_witness :
    (∀ c ∈ exDst.linearConstraints, c.sense = Sense.eq) ∧
    (∀ c ∈ exDst.quadraticConstraints, c.sense = Sense.eq) :=
  equality_only_output exState ⟨some exProg, some exDst, "auto"⟩ exProg exDst exConvert

/-- C3: every source variable of an input model whose binary variables carry
the container's 0/1 bounds appears unchanged (name, kind, bounds) at its own
position in the destination model, with all slack variables after them. -/
theorem variable_preservation (s s1 : ConverterState) (p dst : QuadraticProgram)
    (hc : convert s p = (s1, Except.ok dst))
    (hbin : ∀ v ∈ p.vars, v.vartype = VarType.binary →
      v.lowerbound = 0 ∧ v.upperbound = 1) :
    ∃ svs, dst.vars = p.vars ++ svs := by
  obtain ⟨⟨svs, hv⟩, -, -⟩ := convert_ok_struct s p s1 dst hc
  refine ⟨svs, ?_⟩
  rw [hv]
  congr 1
  refine List.map_congr_left (fun v hvm => ?_) |>.trans (List.map_id p.vars)
  cases v with
  | mk n ty lb ub =>
    cases ty
    · obtain ⟨h0, h1⟩ := hbin _ hvm rfl
      simp only at h0 h1
      simp [copyVar, h0, h1]
    · rfl
    · rfl

/-- Witness for C3 at the concrete model `exProg`. -/
theorem variable_preservation_witness :
    ∃ svs, exDst.vars = exProg.vars ++ svs :=
  variable_preservation exState ⟨some exProg, some exDst, "auto"⟩ exProg exDst
    exConvert (by decide)

/-- C2: after a successful convert, for a solution vector `x` with one entry
per destination variable, `interpret` returns a vector of length equal to the
source variable count whose entry at each source position equals the entry of
`x` at the position of the equally named destination variable (name
uniqueness of the destination model assumed, as the container guarantees);
slack entries of `x` are dropped. -/
theorem round_trip_interpretation (s s1 : ConverterState)
    (p dst : QuadraticProgram) (x : List ℚ)
    (hc : convert s p = (s1, Except.ok dst))
    (hnd : (dst.vars.map Variable.name).Nodup)
    (hlen : x.length = dst.vars.length) :
    ∃ r, interpret p dst x = some r ∧ r.length = p.vars.length ∧
      ∀ (i j : ℕ) (hi : i < p.vars.length) (hj : j < dst.vars.length),
        (dst.vars.get ⟨j, hj⟩).name = (p.vars.get ⟨i, hi⟩).name →
        r.getD i 0 = x.getD j 0 := by
  obtain ⟨⟨svs, hv⟩, -, -⟩ := convert_ok_struct s p s1 dst hc
  have hsublen : p.vars.length ≤ dst.vars.length := by
    rw [hv]
    simp
  have hnames_len : (dst.vars.map Variable.name).length = dst.vars.length :=
    List.length_map _ _
  have hxlen : x.length = (dst.vars.map Variable.name).length := by
    rw [hnames_len]; exact hlen
  have hname_at : ∀ (i : ℕ) (hi : i < p.vars.length),
      (dst.vars.map Variable.name).get ⟨i, by omega⟩ = (p.vars.get ⟨i, hi⟩).name := by
    intro i hi
    have hid : i < dst.vars.length := lt_of_lt_of_le hi hsublen
    have himap : i < (p.vars.map copyVar).length := by simpa using hi
    have hdv : dst.vars.get ⟨i, hid⟩ = copyVar (p.vars.get ⟨i, hi⟩) := by
      simp only [List.get_eq_getElem]
      simp only [hv]
      rw [List.getElem_append_left himap]
      simp
    have h1 : (dst.vars.map Variable.name).get ⟨i, by omega⟩ =
        (dst.vars.get ⟨i, hid⟩).name := by
      simp [List.get_eq_getElem]
    rw [h1, hdv, copyVar_name]
  have hsome : ∀ v ∈ p.vars,
      (lookupLast ((dst.vars.map Variable.name).zip x) v.name).isSome := by
    intro v hvm
    obtain ⟨⟨i, hi⟩, hgi⟩ := List.mem_iff_get.mp hvm
    have := lookupLast_zip (dst.vars.map Variable.name) x i (by omega)
      (by omega) hxlen hnd
    rw [hname_at i hi, hgi] at this
    rw [this]
    rfl
  refine ⟨p.vars.map (fun v =>
    (lookupLast ((dst.vars.map Variable.name).zip x) v.name).getD 0), ?_, ?_, ?_⟩
  · exact interpretVals_eq _ p.vars hsome
  · exact List.length_map _ _
  · intro i j hi hj hnm
    have hrlen : i < (p.vars.map (fun v =>
        (lookupLast ((dst.vars.map Variable.name).zip x) v.name).getD 0)).length := by
      simpa using hi
    rw [List.getD_eq_getElem _ _ hrlen, List.getElem_map]
    have hxj : j < x.length := by omega
    rw [List.getD_eq_getElem _ _ hxj]
    have hjn : j < (dst.vars.map Variable.name).length := by omega
    have hlk := lookupLast_zip (dst.vars.map Variable.name) x j hjn hxj hxlen hnd
    have hname_j : (dst.vars.map Variable.name).get ⟨j, hjn⟩ =
        (p.vars.get ⟨i, hi⟩).name := by
      simp only [List.get_eq_getElem, List.getElem_map]
      exact hnm
    rw [hname_j] at hlk
    have : (p.vars[i]).name = (p.vars.get ⟨i, hi⟩).name := rfl
    rw [this, hlk]
    rfl

/-- Witness for C2: interpret the vector `[4, 2]` through the conversion of
`exProg`. -/
theorem round_trip_interpretation_witness :
    ∃ r, interpret exProg exDst [4, 2] = some r ∧
      r.length = exProg.vars.length ∧
      ∀ (i j : ℕ) (hi : i < exProg.vars.length) (hj : j < exDst.vars.length),
        (exDst.vars.get ⟨j, hj⟩).name = (exProg.vars.get ⟨i, hi⟩).name →
        r.getD i 0 = ([4, 2] : List ℚ).getD j 0 :=
  round_trip_interpretation exState ⟨some exProg, some exDst, "auto"⟩
    exProg exDst [4, 2] exConvert (by decide) (by decide)

/-- C4: the integer-mode/float restriction and the mode resolution. With
configured mode `"integer"`, a constraint with a non-integral coefficient is
rejected with a domain error naming the constraint; under `"auto"` the helper
behaves exactly like the core run under `"continuous"` when such a
coefficient exists and under `"integer"` otherwise (for every constraint,
whatever its rhs); under `"continuous"` the core runs under `"continuous"`. -/
theorem slack_mode_resolution (src dst : QuadraticProgram)
    (c : LinearConstraint) (q : QuadraticConstraint) :
    (anyFloat (c.linear.map Prod.snd) = true →
      addSlackVarLinearConstraint "integer" src dst c =
        Except.error (ConvError.incompatibleSlackMode c.name)) ∧
    ((anyFloat (q.linear.map Prod.snd) || anyFloat (q.quadratic.map Prod.snd)) = true →
      addSlackVarQuadraticConstraint "integer" src dst q =
        Except.error (ConvError.incompatibleSlackMode q.name)) ∧
    (addSlackVarLinearConstraint "auto" src dst c =
      addSlackVarLinearCore
        (if anyFloat (c.linear.map Prod.snd) then "continuous" else "integer")
        src dst c) ∧
    (addSlackVarQuadraticConstraint "auto" src dst q =
      addSlackVarQuadraticCore
        (if anyFloat (q.linear.map Prod.snd) || anyFloat (q.quadratic.map Prod.snd)
         then "continuous" else "integer") src dst q) ∧
    (addSlackVarLinearConstraint "continuous" src dst c =
      addSlackVarLinearCore "continuous" src dst c) ∧
    (addSlackVarQuadraticConstraint "continuous" src dst q =
      addSlackVarQuadraticCore "continuous" src dst q) := by
  refine ⟨?_, ?_, ?_, ?_, ?_, ?_⟩
  · intro haf
    simp [addSlackVarLinearConstraint, haf]
  · intro haf
    simp [addSlackVarQuadraticConstraint, haf]
  · cases haf : anyFloat (c.linear.map Prod.snd) <;>
      simp [addSlackVarLinearConstraint, effectiveMode, haf]
  · cases haf : anyFloat (q.linear.map Prod.snd) || anyFloat (q.quadratic.map Prod.snd) <;>
      simp [addSlackVarQuadraticConstraint, effectiveMode, haf]
  · simp [addSlackVarLinearConstraint, effectiveMode]
  · simp [addSlackVarQuadraticConstraint, effectiveMode]

/-- The fractional-coefficient constraint `x/2 ≤ 7` used in witnesses. -/
def exFracC : LinearConstraint := ⟨[("x", mkRat 1 2)], Sense.le, 7, "c1"⟩

/-- The quadratic constraint `x + x²/2 ≤ 7`, with a fractional quadratic
coefficient, used in witnesses. -/
def exFracQ : QuadraticConstraint :=
  ⟨[("x", 1)], [(("x", "x"), mkRat 1 2)], Sense.le, 7, "qc"⟩

/-- Witness for C4 at the concrete constraints `exFracC` and `exFracQ`. -/
theorem slack_mode_resolution_witness :
    addSlackVarLinearConstraint "integer" exProg (emptyProgram "d") exFracC =
      Except.error (ConvError.incompatibleSlackMode "c1") ∧
    addSlackVarQuadraticConstraint "integer" exProg (emptyProgram "d") exFracQ =
      Except.error (ConvError.incompatibleSlackMode "qc") ∧
    (addSlackVarLinearConstraint "auto" exProg (emptyProgram "d") exFracC =
      addSlackVarLinearCore
        (if anyFloat (exFracC.linear.map Prod.snd) then "continuous" else "integer")
        exProg (emptyProgram "d") exFracC) ∧
    (addSlackVarQuadraticConstraint "auto" exProg (emptyProgram "d") exFracQ =
      addSlackVarQuadraticCore
        (if anyFloat (exFracQ.linear.map Prod.snd) ||
            anyFloat (exFracQ.quadratic.map Prod.snd)
         then "continuous" else "integer") exProg (emptyProgram "d") exFracQ) ∧
    (addSlackVarLinearConstraint "continuous" exProg (emptyProgram "d") exFracC =
      addSlackVarLinearCore "continuous" exProg (emptyProgram "d") exFracC) ∧
    (addSlackVarQuadraticConstraint "continuous" exProg (emptyProgram "d") exFracQ =
      addSlackVarQuadraticCore "continuous" exProg (emptyProgram "d") exFracQ) := by
  have h := slack_mode_resolution exProg (emptyProgram "d") exFracC exFracQ
  exact ⟨h.1 (by decide), h.2.1 (by decide), h.2.2.1, h.2.2.2.1,
    h.2.2.2.2.1, h.2.2.2.2.2⟩

/-- C9: assigning any value to the `mode` property never raises (the setter
is a plain store); an unsupported value is only rejected at the start of the
next `convert` call, which fails before touching anything mode-dependent
(the destination is still the fresh empty model). -/
theorem mode_setter_deferred_validation (s : ConverterState) (m : String)
    (p : QuadraticProgram) :
    (setMode s m).mode = m ∧
    (validMode m = false →
      convert (setMode s m) p =
        (⟨some p, some (emptyProgram p.name), m⟩,
         Except.error (ConvError.unsupportedMode m))) := by
  refine ⟨rfl, fun hm => ?_⟩
  simp [convert, setMode, hm]

/-- Witness for C9: storing the unsupported mode `"typo"` succeeds and the
next convert rejects it. -/
theorem mode_setter_deferred_validation_witness :
    (setMode exState "typo").mode = "typo" ∧
    convert (setMode exState "typo") exProg =
      (⟨some exProg, some (emptyProgram exProg.name), "typo"⟩,
       Except.error (ConvError.unsupportedMode "typo")) := by
  have h := mode_setter_deferred_validation exState "typo" exProg
  exact ⟨h.1, h.2 (by decide)⟩

/-- C5 (as amended): a failing `convert` does not leave the previous
successful state in place — `_src` is overwritten with the (copy of the) new
input in every call, and when the mode check fails `_dst` is overwritten with
the fresh empty destination model before the error is raised. -/
theorem convert_failure_overwrites_state (s : ConverterState) (p : QuadraticProgram) :
    (convert s p).1.src = some p ∧
    (validMode s.mode = false →
      (convert s p).1.dst = some (emptyProgram p.name) ∧
      (convert s p).2 = Except.error (ConvError.unsupportedMode s.mode)) := by
  constructor
  · simp only [convert]
    split
    · rfl
    · split
      · rfl
      · split
        · rfl
        · rfl
  · intro hm
    simp [convert, hm]

/-- Witness for C5's amended statement with the unsupported mode `"typo"`. -/
theorem convert_failure_overwrites_state_witness :
    (convert ⟨some exProg, some exDst, "typo"⟩ exProg).1.src = some exProg ∧
    (convert ⟨some exProg, some exDst, "typo"⟩ exProg).1.dst =
      some (emptyProgram exProg.name) ∧
    (convert ⟨some exProg, some exDst, "typo"⟩ exProg).2 =
      Except.error (ConvError.unsupportedMode "typo") := by
  have h := convert_failure_overwrites_state ⟨some exProg, some exDst, "typo"⟩ exProg
  exact ⟨h.1, (h.2 (by decide)).1, (h.2 (by decide)).2⟩

/-- A second concrete model, used to show that a failing convert replaces the
state left by an earlier successful conversion. -/
def exProgB : QuadraticProgram :=
  ⟨"q", [⟨"y", VarType.continuous, 0, 5⟩], [], [], ⟨0, [], [], ObjSense.minimize⟩⟩

/-- Counterexample to C5 as stated: after a successful convert of `exProg`,
setting the mode to `"typo"` and calling convert on another model raises, yet
the converter's destination state no longer is the one of the successful
conversion — it has been overwritten with the fresh empty model of the new
input, so a later interpret would not refer to the earlier conversion. -/
theorem convert_failure_state_cex :
    (convert exState exProg).2 = Except.ok exDst ∧
    (convert (setMode (convert exState exProg).1 "typo") exProgB).2 =
      Except.error (ConvError.unsupportedMode "typo") ∧
    (convert (setMode (convert exState exProg).1 "typo") exProgB).1.dst ≠
      (convert exState exProg).1.dst := by
  rw [exConvert]
  refine ⟨rfl, rfl, ?_⟩
  decide

/-- C7: the emitted right-hand side is the adjusted rhs of the resolved mode;
under integer effective mode it is `⌊rhs⌋` for ≤ (hence ≤ the original) and
`⌈rhs⌉` for ≥ (hence ≥ the original); under continuous effective mode the rhs
is unchanged. Stated for both the linear and the quadratic helper. -/
theorem integer_tightening_monotonicity (mode : String)
    (src dst d1 d2 : QuadraticProgram)
    (c : LinearConstraint) (q : QuadraticConstraint) (a : LinArgs) (b : QuadArgs)
    (hlin : addSlackVarLinearConstraint mode src dst c = Except.ok (d1, a))
    (hquad : addSlackVarQuadraticConstraint mode src dst q = Except.ok (d2, b)) :
    a.rhs = adjustRhs (effectiveMode mode (anyFloat (c.linear.map Prod.snd)))
      c.sense c.rhs ∧
    b.rhs = adjustRhs
      (effectiveMode mode
        (anyFloat (q.linear.map Prod.snd) || anyFloat (q.quadratic.map Prod.snd)))
      q.sense q.rhs ∧
    (∀ r : ℚ, adjustRhs "integer" Sense.le r = (⌊r⌋ : ℚ) ∧
      adjustRhs "integer" Sense.le r ≤ r) ∧
    (∀ r : ℚ, adjustRhs "integer" Sense.ge r = (⌈r⌉ : ℚ) ∧
      r ≤ adjustRhs "integer" Sense.ge r) ∧
    (∀ (sn : Sense) (r : ℚ), adjustRhs "continuous" sn r = r) := by
  refine ⟨?_, ?_, ?_, ?_, ?_⟩
  · exact (addSlackVarLinearCore_ok _ src dst c d1 a
      (addSlackVarLinearConstraint_ok mode src dst c d1 a hlin)).2.1
  · exact (addSlackVarQuadraticCore_ok _ src dst q d2 b
      (addSlackVarQuadraticConstraint_ok mode src dst q d2 b hquad)).2.1
  · intro r
    exact ⟨by simp [adjustRhs], by simp [adjustRhs]; exact Int.floor_le r⟩
  · intro r
    exact ⟨by simp [adjustRhs], by simp [adjustRhs]; exact Int.le_ceil r⟩
  · intro sn r
    simp [adjustRhs]

/-- The concrete ≤ constraint `x ≤ 7` used for witnesses. -/
def exLinC : LinearConstraint := ⟨[("x", 1)], Sense.le, 7, "c1"⟩

/-- The concrete quadratic constraint `x + x² ≥ 2` used for witnesses. -/
def exQuadC : QuadraticConstraint := ⟨[("x", 1)], [(("x", "x"), 1)], Sense.ge, 2, "qc"⟩

/-- The tuple the linear helper emits for `exLinC` under `"continuous"`. -/
def exLinA : LinArgs := ⟨[("x", 1), ("c1@continuous_slack", 1)], Sense.eq, 7, "c1"⟩

/-- The tuple the quadratic helper emits for `exQuadC` under `"continuous"`. -/
def exQuadA : QuadArgs :=
  ⟨[("x", 1), ("qc@continuous_slack", -1)], [(("x", "x"), 1)], Sense.eq, 2, "qc"⟩

lemma exLinRun :
    addSlackVarLinearConstraint "continuous" exProg (emptyProgram "d") exLinC =
      Except.ok (continuousVar (emptyProgram "d") "c1@continuous_slack" 0 7, exLinA) := by
  norm_num [addSlackVarLinearConstraint, addSlackVarLinearCore, exProg, exLinC,
    exLinA, anyFloat, effectiveMode, adjustRhs, coreLinSlackUB, linLowerBound,
    linUpperBound, termLB, termUB, findVar, modeName, delimiter, setCoeff,
    slackSign]
  constructor <;> rfl

lemma exQuadRun :
    addSlackVarQuadraticConstraint "continuous" exProg (emptyProgram "d") exQuadC =
      Except.ok (continuousVar (emptyProgram "d") "qc@continuous_slack" 0 108, exQuadA) := by
  norm_num [addSlackVarQuadraticConstraint, addSlackVarQuadraticCore, exProg,
    exQuadC, exQuadA, anyFloat, effectiveMode, adjustRhs, coreQuadSlackUB,
    linLowerBound, linUpperBound, quadLowerBound, quadUpperBound, termLB,
    termUB, quadTermLB, quadTermUB, findVar, modeName, delimiter, setCoeff,
    slackSign]
  constructor <;> rfl

/-- Witness for C7 at `exLinC` and `exQuadC` under `"continuous"`, with the
rounding facts instantiated at the fractional rhs `7/2`. -/
theorem integer_tightening_monotonicity_witness :
    exLinA.rhs = adjustRhs
      (effectiveMode "continuous" (anyFloat (exLinC.linear.map Prod.snd)))
      exLinC.sense exLinC.rhs ∧
    exQuadA.rhs = adjustRhs
      (effectiveMode "continuous"
        (anyFloat (exQuadC.linear.map Prod.snd) ||
          anyFloat (exQuadC.quadratic.map Prod.snd)))
      exQuadC.sense exQuadC.rhs ∧
    (adjustRhs "integer" Sense.le (mkRat 7 2) = (⌊mkRat 7 2⌋ : ℚ) ∧
      adjustRhs "integer" Sense.le (mkRat 7 2) ≤ mkRat 7 2) ∧
    (adjustRhs "integer" Sense.ge (mkRat 7 2) = (⌈mkRat 7 2⌉ : ℚ) ∧
      mkRat 7 2 ≤ adjustRhs "integer" Sense.ge (mkRat 7 2)) ∧
    adjustRhs "continuous" Sense.le (mkRat 7 2) = mkRat 7 2 := by
  have h := integer_tightening_monotonicity "continuous" exProg (emptyProgram "d")
    (continuousVar (emptyProgram "d") "c1@continuous_slack" 0 7)
    (continuousVar (emptyProgram "d") "qc@continuous_slack" 0 108)
    exLinC exQuadC exLinA exQuadA exLinRun exQuadRun
  exact ⟨h.1, h.2.1, h.2.2.1 (mkRat 7 2), h.2.2.2.1 (mkRat 7 2),
    h.2.2.2.2 Sense.le (mkRat 7 2)⟩

lemma processLin_no_slack (mode : String) (src : QuadraticProgram)
    (cs : List LinearConstraint) :
    ∀ (dst dst1 : QuadraticProgram) (args : List LinArgs),
      (∀ c ∈ cs, linSlackUB mode src c ≤ 0) →
      processLinearConstraints mode src dst cs = (dst1, Except.ok args) →
      dst1 = dst := by
  induction cs with
  | nil =>
    intro dst dst1 args _ h
    simp only [processLinearConstraints, Prod.mk.injEq, Except.ok.injEq] at h
    exact h.1.symm
  | cons c rest ih =>
    intro dst dst1 args hle h
    simp only [processLinearConstraints] at h
    split at h
    · split at h
      · rename_i hm
        simp only [Prod.mk.injEq, Except.ok.injEq] at h
        obtain ⟨h1, -⟩ := h
        subst h1
        exact ih _ _ _ (fun d hd => hle d (List.mem_cons_of_mem c hd)) hm
      · exact absurd h (by simp)
    · split at h
      · rename_i hadd
        split at h
        · rename_i hm
          simp only [Prod.mk.injEq, Except.ok.injEq] at h
          obtain ⟨h1, -⟩ := h
          subst h1
          have hda := (addSlackVarLinearCore_ok_nonpos _ src dst c _ _
            (addSlackVarLinearConstraint_ok mode src dst c _ _ hadd)
            (hle c (List.mem_cons_self c rest))).1
          subst hda
          exact ih _ _ _ (fun d hd => hle d (List.mem_cons_of_mem c hd)) hm
        · exact absurd h (by simp)
      · exact absurd h (by simp)

lemma processQuad_no_slack (mode : String) (src : QuadraticProgram)
    (cs : List QuadraticConstraint) :
    ∀ (dst dst1 : QuadraticProgram) (args : List QuadArgs),
      (∀ c ∈ cs, quadSlackUB mode src c ≤ 0) →
      processQuadraticConstraints mode src dst cs = (dst1, Except.ok args) →
      dst1 = dst := by
  induction cs with
  | nil =>
    intro dst dst1 args _ h
    simp only [processQuadraticConstraints, Prod.mk.injEq, Except.ok.injEq] at h
    exact h.1.symm
  | cons c rest ih =>
    intro dst dst1 args hle h
    simp only [processQuadraticConstraints] at h
    split at h
    · split at h
      · rename_i hm
        simp only [Prod.mk.injEq, Except.ok.injEq] at h
        obtain ⟨h1, -⟩ := h
        subst h1
        exact ih _ _ _ (fun d hd => hle d (List.mem_cons_of_mem c hd)) hm
      · exact absurd h (by simp)
    · split at h
      · rename_i hadd
        split at h
        · rename_i hm
          simp only [Prod.mk.injEq, Except.ok.injEq] at h
          obtain ⟨h1, -⟩ := h
          subst h1
          have hda := (addSlackVarQuadraticCore_ok_nonpos _ src dst c _ _
            (addSlackVarQuadraticConstraint_ok mode src dst c _ _ hadd)
            (hle c (List.mem_cons_self c rest))).1
          subst hda
          exact ih _ _ _ (fun d hd => hle d (List.mem_cons_of_mem c hd)) hm
        · exact absurd h (by simp)
      · exact absurd h (by simp)

/-- C8: a ≤/≥ constraint whose computed slack upper bound is ≤ 0 adds no
variable and is emitted as a bare equality at the adjusted rhs with its
original terms; when this holds for every constraint of the model, the
destination variable count equals the source variable count. -/
theorem no_slack_when_redundant :
    (∀ (mode : String) (src dst d1 : QuadraticProgram) (c : LinearConstraint)
      (a : LinArgs),
      addSlackVarLinearConstraint mode src dst c = Except.ok (d1, a) →
      linSlackUB mode src c ≤ 0 →
      d1 = dst ∧ a = ⟨c.linear, Sense.eq,
        adjustRhs (effectiveMode mode (anyFloat (c.linear.map Prod.snd)))
          c.sense c.rhs, c.name⟩) ∧
    (∀ (mode : String) (src dst d1 : QuadraticProgram) (c : QuadraticConstraint)
      (a : QuadArgs),
      addSlackVarQuadraticConstraint mode src dst c = Except.ok (d1, a) →
      quadSlackUB mode src c ≤ 0 →
      d1 = dst ∧ a = ⟨c.linear, c.quadratic, Sense.eq,
        adjustRhs
          (effectiveMode mode
            (anyFloat (c.linear.map Prod.snd) || anyFloat (c.quadratic.map Prod.snd)))
          c.sense c.rhs, c.name⟩) ∧
    (∀ (s s1 : ConverterState) (p dst : QuadraticProgram),
      convert s p = (s1, Except.ok dst) →
      (∀ c ∈ p.linearConstraints, linSlackUB s.mode p c ≤ 0) →
      (∀ c ∈ p.quadraticConstraints, quadSlackUB s.mode p c ≤ 0) →
      dst.vars.length = p.vars.length) := by
  refine ⟨?_, ?_, ?_⟩
  · intro mode src dst d1 c a hok hle
    exact addSlackVarLinearCore_ok_nonpos _ src dst c d1 a
      (addSlackVarLinearConstraint_ok mode src dst c d1 a hok) hle
  · intro mode src dst d1 c a hok hle
    exact addSlackVarQuadraticCore_ok_nonpos _ src dst c d1 a
      (addSlackVarQuadraticConstraint_ok mode src dst c d1 a hok) hle
  · intro s s1 p dst hc hlin hquad
    simp only [convert] at hc
    split at hc
    · exact absurd hc (by simp)
    · split at hc
      · exact absurd hc (by simp)
      · rename_i dst2 linArgs hpl
        split at hc
        · exact absurd hc (by simp)
        · rename_i dst3 quadArgs hpq
          simp only [Prod.mk.injEq, Except.ok.injEq] at hc
          obtain ⟨-, h2⟩ := hc
          have e3 : dst3 = dst2 :=
            processQuad_no_slack s.mode p p.quadraticConstraints _ _ _ hquad hpq
          have e2 : dst2 = p.vars.foldl copyVariable (emptyProgram p.name) :=
            processLin_no_slack s.mode p p.linearConstraints _ _ _ hlin hpl
          subst h2
          obtain ⟨hfv, -, -⟩ :=
            foldl_addLinearConstraintArgs linArgs (setObjective dst3 p.objective)
          obtain ⟨hgv, -, -⟩ :=
            foldl_addQuadraticConstraintArgs quadArgs
              (linArgs.foldl addLinearConstraintArgs (setObjective dst3 p.objective))
          rw [hgv, hfv]
          have : (setObjective dst3 p.objective).vars = dst3.vars := rfl
          rw [this, e3, e2, foldl_copyVariable_vars p.vars (emptyProgram p.name)]
          simp [emptyProgram]

/-- A redundant inequality: `x ≤ 20` over `x ∈ [0, 10]` needs no slack under
`"continuous"` because the slack bound would be `10 - 20 ≤ 0`. -/
def exRedProg : QuadraticProgram :=
  ⟨"r", [⟨"x", VarType.continuous, 0, 10⟩],
   [⟨[("x", 1)], Sense.ge, 0, "r1"⟩], [],
   ⟨0, [], [], ObjSense.minimize⟩⟩

/-- The destination `convert` builds for `exRedProg` under `"continuous"`:
the ≥ slack bound is `10 - 0 = 10 > 0`... the constraint `x ≥ 20` instead has
bound `10 - 20 ≤ 0`, so no slack variable is created. -/
def exRedC : LinearConstraint := ⟨[("x", 1)], Sense.ge, 20, "r1"⟩

lemma exRedRun :
    addSlackVarLinearConstraint "continuous" exRedProg (emptyProgram "d") exRedC =
      Except.ok (emptyProgram "d", ⟨[("x", 1)], Sense.eq, 20, "r1"⟩) := by
  norm_num [addSlackVarLinearConstraint, addSlackVarLinearCore, exRedProg,
    exRedC, anyFloat, effectiveMode, adjustRhs, coreLinSlackUB, linLowerBound,
    linUpperBound, termLB, termUB, findVar, modeName, delimiter, setCoeff,
    slackSign]

/-- Witness for C8's first component at the redundant constraint `exRedC`. -/
theorem no_slack_when_redundant_witness :
    emptyProgram "d" = emptyProgram "d" ∧
    (⟨[("x", 1)], Sense.eq, 20, "r1"⟩ : LinArgs) = ⟨exRedC.linear, Sense.eq,
      adjustRhs (effectiveMode "continuous" (anyFloat (exRedC.linear.map Prod.snd)))
        exRedC.sense exRedC.rhs, exRedC.name⟩ :=
  no_slack_when_redundant.1 "continuous" exRedProg (emptyProgram "d")
    (emptyProgram "d") exRedC ⟨[("x", 1)], Sense.eq, 20, "r1"⟩ exRedRun
    (by norm_num [linSlackUB, coreLinSlackUB, effectiveMode, anyFloat, adjustRhs,
      exRedC, exRedProg, linLowerBound, linUpperBound, termLB, termUB, findVar])

/-- C6 (as amended): for a ≤ constraint rewritten with a slack variable,
evaluating the new equality's left-hand side with the slack at its upper
bound and the original variables at the valuation achieving the lhs interval
lower bound reproduces the *adjusted* right-hand side exactly (which equals
the original rhs unless integer effective mode rounded it); analogously for ≥
with the interval upper bound. -/
theorem slack_substitution_adjusted_rhs (mode : String)
    (src dst d1 : QuadraticProgram) (c : LinearConstraint) (a : LinArgs)
    (hok : addSlackVarLinearConstraint mode src dst c = Except.ok (d1, a))
    (hpos : 0 < linSlackUB mode src c)
    (hnd : (c.linear.map Prod.fst).Nodup)
    (hfind : ∀ t ∈ c.linear, (findVar src t.1).isSome)
    (hb : ∀ v ∈ src.vars, v.lowerbound ≤ v.upperbound)
    (hfresh : ∀ t ∈ c.linear,
      t.1 ≠ slackNameOf (effectiveMode mode (anyFloat (c.linear.map Prod.snd)))
        c.name) :
    (c.sense = Sense.le →
      evalLin (fun n =>
        if n = slackNameOf (effectiveMode mode (anyFloat (c.linear.map Prod.snd)))
            c.name
        then linSlackUB mode src c else minimizingVal src c.linear n)
        a.linear = a.rhs) ∧
    (c.sense = Sense.ge →
      evalLin (fun n =>
        if n = slackNameOf (effectiveMode mode (anyFloat (c.linear.map Prod.snd)))
            c.name
        then linSlackUB mode src c else maximizingVal src c.linear n)
        a.linear = a.rhs) := by
  have hcore := addSlackVarLinearConstraint_ok mode src dst c d1 a hok
  have hpos' : 0 < coreLinSlackUB
      (effectiveMode mode (anyFloat (c.linear.map Prod.snd))) src c := hpos
  have halin := addSlackVarLinearCore_ok_pos _ src dst c d1 a hcore hpos'
  have hrhs := (addSlackVarLinearCore_ok _ src dst c d1 a hcore).2.1
  constructor
  · intro hle
    rw [halin, hrhs]
    simp only [setCoeff]
    rw [evalLin_append_single, if_pos rfl]
    have hcongr : evalLin (fun n =>
        if n = slackNameOf (effectiveMode mode (anyFloat (c.linear.map Prod.snd)))
            c.name
        then linSlackUB mode src c else minimizingVal src c.linear n) c.linear =
        evalLin (minimizingVal src c.linear) c.linear := by
      refine evalLin_congr _ _ c.linear (fun t ht => ?_)
      rw [if_neg (hfresh t ht)]
    rw [hcongr, evalLin_minimizingVal src c.linear hnd hfind hb]
    have hsign : slackSign c.sense
        (coreLinSlackUB (effectiveMode mode (anyFloat (c.linear.map Prod.snd))) src c)
        = 1 := by
      rw [hle]
      exact if_pos hpos'
    rw [hsign]
    have hub : linSlackUB mode src c =
        adjustRhs (effectiveMode mode (anyFloat (c.linear.map Prod.snd)))
          c.sense c.rhs - linLowerBound src c.linear := by
      rw [linSlackUB, coreLinSlackUB, hle]
    rw [hub]
    ring
  · intro hge
    rw [halin, hrhs]
    simp only [setCoeff]
    rw [evalLin_append_single, if_pos rfl]
    have hcongr : evalLin (fun n =>
        if n = slackNameOf (effectiveMode mode (anyFloat (c.linear.map Prod.snd)))
            c.name
        then linSlackUB mode src c else maximizingVal src c.linear n) c.linear =
        evalLin (maximizingVal src c.linear) c.linear := by
      refine evalLin_congr _ _ c.linear (fun t ht => ?_)
      rw [if_neg (hfresh t ht)]
    rw [hcongr, evalLin_maximizingVal src c.linear hnd hfind hb]
    have hsign : slackSign c.sense
        (coreLinSlackUB (effectiveMode mode (anyFloat (c.linear.map Prod.snd))) src c)
        = -1 := by
      rw [hge]
      exact if_pos hpos'
    rw [hsign]
    have hub : linSlackUB mode src c =
        linUpperBound src c.linear -
          adjustRhs (effectiveMode mode (anyFloat (c.linear.map Prod.snd)))
            c.sense c.rhs := by
      rw [linSlackUB, coreLinSlackUB, hge]
    rw [hub]
    ring

/-- Witness for C6's amended statement: `x ≤ 7` over `x ∈ [0, 10]` under
`"continuous"` mode — with the slack at its upper bound `7` and `x` at its
lower bound `0`, the emitted equality evaluates to the adjusted rhs `7`. -/
theorem slack_substitution_adjusted_rhs_witness :
    evalLin (fun n =>
      if n = slackNameOf
          (effectiveMode "continuous" (anyFloat (exLinC.linear.map Prod.snd)))
          exLinC.name
      then linSlackUB "continuous" exProg exLinC
      else minimizingVal exProg exLinC.linear n) exLinA.linear = exLinA.rhs :=
  (slack_substitution_adjusted_rhs "continuous" exProg (emptyProgram "d")
    (continuousVar (emptyProgram "d") "c1@continuous_slack" 0 7) exLinC exLinA
    exLinRun
    (by norm_num [linSlackUB, coreLinSlackUB, effectiveMode, anyFloat, adjustRhs,
      exLinC, exProg, linLowerBound, linUpperBound, termLB, termUB, findVar])
    (by decide) (by decide) (by decide) (by decide)).1 rfl

/-- The model exhibiting the counterexample to C6 as stated: an integral
coefficient but fractional rhs `x ≤ 7/2`, over the integer `x ∈ [0, 10]`. -/
def exFracProg : QuadraticProgram :=
  ⟨"p", [⟨"x", VarType.integer, 0, 10⟩],
   [⟨[("x", 1)], Sense.le, 7/2, "c1"⟩], [],
   ⟨0, [], [], ObjSense.minimize⟩⟩

/-- What `convert` produces for `exFracProg` under `"auto"`: integer slack,
rhs floored from `7/2` to `3`. -/
def exFracDst : QuadraticProgram :=
  ⟨"p", [⟨"x", VarType.integer, 0, 10⟩,
         ⟨"c1@int_slack", VarType.integer, 0, 3⟩],
   [⟨[("x", 1), ("c1@int_slack", 1)], Sense.eq, 3, "c1"⟩], [],
   ⟨0, [], [], ObjSense.minimize⟩⟩

/-- The valuation putting the slack at its upper bound `3` and `x` at `0`,
the value achieving the lhs interval lower bound. -/
def exFracVal : String → ℚ := fun n => if n = "c1@int_slack" then 3 else 0

/-- Counterexample to C6 as stated: for the ≤ constraint `x ≤ 7/2` the slack
variable gets upper bound `3`, and evaluating the new equality's lhs with the
slack at that bound and `x` at the interval lower bound gives `3`, not the
original rhs `7/2` — the substitution reproduces the *adjusted* rhs, not the
original one. -/
theorem slack_substitution_original_rhs_cex :
    (convert exState exFracProg).2 = Except.ok exFracDst ∧
    exFracDst.vars = [⟨"x", VarType.integer, 0, 10⟩,
      ⟨"c1@int_slack", VarType.integer, 0, 3⟩] ∧
    exFracDst.linearConstraints =
      [⟨[("x", 1), ("c1@int_slack", 1)], Sense.eq, 3, "c1"⟩] ∧
    exFracVal "c1@int_slack" = 3 ∧
    exFracProg.linearConstraints = [⟨[("x", 1)], Sense.le, 7/2, "c1"⟩] ∧
    evalLin exFracVal [("x", (1 : ℚ))] = linLowerBound exFracProg [("x", (1 : ℚ))] ∧
    evalLin exFracVal [("x", (1 : ℚ)), ("c1@int_slack", (1 : ℚ))] ≠ (7 : ℚ)/2 := by
  refine ⟨?_, rfl, rfl, rfl, ?_, ?_, ?_⟩
  · norm_num [convert, exState, exFracProg, exFracDst, validMode, emptyProgram,
      copyVariable, processLinearConstraints, processQuadraticConstraints,
      addSlackVarLinearConstraint, addSlackVarLinearCore, anyFloat,
      effectiveMode, adjustRhs, coreLinSlackUB, linLowerBound, linUpperBound,
      termLB, termUB, findVar, modeName, delimiter, setCoeff, slackSign,
      continuousVar, integerVar, binaryVar, setObjective,
      addLinearConstraintArgs, addQuadraticConstraintArgs]
    constructor <;> rfl
  · norm_num [exFracProg]
  · norm_num [evalLin, exFracVal, linLowerBound, termLB, findVar, exFracProg]
    decide
  · norm_num [evalLin, exFracVal, exFracProg]
    rw [if_neg (by decide)]
    norm_num

/-- The model for C10: integral coefficient, continuous variable with the
fractional lower bound `1/2`. -/
def exHalfProg : QuadraticProgram :=
  ⟨"p", [⟨"x", VarType.continuous, 1/2, 10⟩],
   [⟨[("x", 1)], Sense.le, 7, "c1"⟩], [],
   ⟨0, [], [], ObjSense.minimize⟩⟩

/-- What `convert` produces for `exHalfProg` under `"auto"`: an
*integer*-kind slack variable whose upper bound is the non-integral
`7 - 1/2 = 13/2`. -/
def exHalfDst : QuadraticProgram :=
  ⟨"p", [⟨"x", VarType.continuous, 1/2, 10⟩,
         ⟨"c1@int_slack", VarType.integer, 0, 13/2⟩],
   [⟨[("x", 1), ("c1@int_slack", 1)], Sense.eq, 7, "c1"⟩], [],
   ⟨0, [], [], ObjSense.minimize⟩⟩

/-- C10: an input with all-integral coefficients but a continuous variable
with a fractional bound makes `convert` (under `"auto"`, which resolves to
integer because only coefficients are checked) create an integer-kind slack
variable with a non-integral upper bound `13/2`. -/
theorem integer_slack_fractional_upperbound :
    (convert exState exHalfProg).2 = Except.ok exHalfDst ∧
    exHalfDst.vars = [⟨"x", VarType.continuous, 1/2, 10⟩,
      ⟨"c1@int_slack", VarType.integer, 0, 13/2⟩] ∧
    ((13 : ℚ)/2).den ≠ 1 := by
  refine ⟨?_, rfl, ?_⟩
  · norm_num [convert, exState, exHalfProg, exHalfDst, validMode, emptyProgram,
      copyVariable, processLinearConstraints, processQuadraticConstraints,
      addSlackVarLinearConstraint, addSlackVarLinearCore, anyFloat,
      effectiveMode, adjustRhs, coreLinSlackUB, linLowerBound, linUpperBound,
      termLB, termUB, findVar, modeName, delimiter, setCoeff, slackSign,
      continuousVar, integerVar, binaryVar, setObjective,
      addLinearConstraintArgs, addQuadraticConstraintArgs]
    constructor <;> rfl
  · norm_num [Rat.den]

end Claims

end IneqToEq
